import Mathlib

/-!
Verification development for the Daily Task Assignment & Reward Ledger Engine
of the synthgraphix-web repository.

The definitions below are a shallow embedding of the server backend
(`src/server/_backup_20260118_230749/src/index.js`, schema from
`src/unnamed/part_001`, client day-boundary rule from `src/unnamed/part_000`).
SQLite tables become Lean lists of rows; each HTTP handler becomes a pure
function from a database state (and explicit request arguments / clock
inputs) to an optional error message together with the post-state.  An error
path returns the state reached at that point (the handlers perform no writes
before their early-return checks, except for the account purge that some
handlers run first).  Timestamps are seconds since the Unix epoch; currency
amounts are integers (the schemas declare `balance_ksh`, `bonus_ksh`,
`reward_ksh`, `amount_ksh` as INTEGER columns).
-/

namespace Synthgraphix

/-- A row of the `tasks` table (the task catalog); only the columns the
ledger engine reads are kept: `id`, `category`, `reward_ksh`, `active`. -/
structure Task where
  id : Nat
  category : String
  reward_ksh : Int
  active : Bool
deriving Repr, DecidableEq

/-- A row of the `users` table; only the ledger-relevant columns are kept.
`delete_effective_at` is the optional purge deadline (epoch seconds). -/
structure User where
  id : Nat
  referred_by : Option Nat
  balance_ksh : Int
  bonus_ksh : Int
  delete_effective_at : Option Nat
deriving Repr, DecidableEq

/-- A row of the `daily_tasks` table: the daily assignment triple. -/
structure DailyTask where
  user_id : Nat
  day : String
  task_id : Nat
deriving Repr, DecidableEq

/-- A row of the `task_completions` table.  `created_day` models
`date(created_at)`: the calendar day of the row's creation timestamp. -/
structure Completion where
  user_id : Nat
  task_id : Nat
  reward_ksh : Int
  answer_text : String
  created_day : String
deriving Repr, DecidableEq

/-- A row of the `referral_rewards` table: the referral-bonus grant fact. -/
structure ReferralReward where
  referrer_id : Nat
  referred_user_id : Nat
deriving Repr, DecidableEq

/-- Withdrawal status: the `status` column takes values "pending" / "paid". -/
inductive WStatus where
  | pending
  | paid
deriving Repr, DecidableEq

/-- A row of the `withdrawals` table. -/
structure Withdrawal where
  user_id : Nat
  amount_ksh : Int
  phone_number : String
  method : String
  status : WStatus
deriving Repr, DecidableEq

/-- The database state: one list of rows per table, in insertion order. -/
structure DB where
  users : List User
  tasks : List Task
  daily_tasks : List DailyTask
  task_completions : List Completion
  referral_rewards : List ReferralReward
  withdrawals : List Withdrawal
deriving Repr, DecidableEq

/-- SELECT ... FROM users WHERE id = ? (first matching row). -/
def findUser (db : DB) (uid : Nat) : Option User :=
  db.users.find? (fun u => u.id == uid)

/-- The spendable balance of user `uid`, when the user row exists. -/
def balanceOf (db : DB) (uid : Nat) : Option Int :=
  (findUser db uid).map User.balance_ksh

/-- The bonus balance of user `uid`, when the user row exists. -/
def bonusOf (db : DB) (uid : Nat) : Option Int :=
  (findUser db uid).map User.bonus_ksh

/-- UPDATE users SET balance_ksh = balance_ksh + ? WHERE id = ?. -/
def updateBalance (db : DB) (uid : Nat) (delta : Int) : DB :=
  { db with users := db.users.map (fun u =>
      if u.id == uid then { u with balance_ksh := u.balance_ksh + delta } else u) }

/-- UPDATE users SET bonus_ksh = bonus_ksh + ? WHERE id = ?. -/
def updateBonus (db : DB) (uid : Nat) (delta : Int) : DB :=
  { db with users := db.users.map (fun u =>
      if u.id == uid then { u with bonus_ksh := u.bonus_ksh + delta } else u) }

/-- SELECT COUNT(*) FROM task_completions WHERE user_id = ? AND
date(created_at) = date("now"): completions of `uid` dated `today`. -/
def dailyCount (db : DB) (uid : Nat) (today : String) : Nat :=
  (db.task_completions.filter (fun c => c.user_id == uid && c.created_day == today)).length

/-- SELECT COUNT(*) FROM task_completions WHERE user_id = ?. -/
def totalCompletions (db : DB) (uid : Nat) : Nat :=
  (db.task_completions.filter (fun c => c.user_id == uid)).length

/-- Number of referral_rewards rows for the pair (referrer, referred user). -/
def grantCount (db : DB) (referrer referred : Nat) : Nat :=
  (db.referral_rewards.filter (fun r =>
    r.referrer_id == referrer && r.referred_user_id == referred)).length

/-- One iteration of the purge loop in `purgeDeletedAccounts` (index.js
lines 33-39): delete the five row groups owned by user `uid`, in the
source's statement order (completions, withdrawals, daily tasks, both-sided
referral rewards, the user row). -/
def purgeUser (db : DB) (uid : Nat) : DB :=
  { db with
    task_completions := db.task_completions.filter (fun c => !(c.user_id == uid)),
    withdrawals := db.withdrawals.filter (fun w => !(w.user_id == uid)),
    daily_tasks := db.daily_tasks.filter (fun d => !(d.user_id == uid)),
    referral_rewards := db.referral_rewards.filter (fun r =>
      !(r.referrer_id == uid || r.referred_user_id == uid)),
    users := db.users.filter (fun u => !(u.id == uid)) }

/-- SELECT id FROM users WHERE delete_effective_at IS NOT NULL AND
datetime(delete_effective_at) <= datetime("now"). -/
def doomedIds (now : Nat) (db : DB) : List Nat :=
  (db.users.filter (fun u => match u.delete_effective_at with
    | some t => decide (t ≤ now)
    | none => false)).map User.id

/-- `purgeDeletedAccounts` (index.js lines 28-40): compute the doomed user
ids once, then run the per-user deletion loop over them. -/
def purgeDeletedAccounts (now : Nat) (db : DB) : DB :=
  (doomedIds now db).foldl purgeUser db

/-- First write of the completion commit (index.js line 292):
INSERT INTO task_completions (user_id, task_id, reward_ksh, answer_text). -/
def insertCompletionWrite (db : DB) (userId taskId : Nat) (reward : Int)
    (answer today : String) : DB :=
  { db with task_completions :=
      db.task_completions ++ [⟨userId, taskId, reward, answer, today⟩] }

/-- Second write of the completion commit (index.js line 293):
UPDATE users SET balance_ksh = balance_ksh + ? WHERE id = ?. -/
def creditBalanceWrite (db : DB) (userId : Nat) (reward : Int) : DB :=
  updateBalance db userId reward

/-- The referral-bonus block of the completion handler (index.js lines
295-309), run after the two commit writes: if the completing user was
referred and this is their first-ever completion (the count query runs after
the insert, so it reads 1), and no referral_rewards row exists for the pair,
insert the grant row and credit the referrer's bonus by 100. -/
def referralStep (db : DB) (userId : Nat) : DB :=
  match findUser db userId with
  | none => db
  | some me =>
    match me.referred_by with
    | none => db
    | some refId =>
      if totalCompletions db userId == 1 then
        match db.referral_rewards.find? (fun r =>
          r.referrer_id == refId && r.referred_user_id == userId) with
        | some _ => db
        | none =>
          updateBonus
            { db with referral_rewards := db.referral_rewards ++ [⟨refId, userId⟩] }
            refId 100
      else db

/-- The POST /api/tasks/:id/complete handler body after its initial
`purgeDeletedAccounts` call (index.js lines 272-313).  Checks in source
order: active task exists; an assignment (user, today, task) exists; fewer
than 5 completions dated today.  Then the two commit writes followed by the
referral-bonus block.  Returns the error message, if any, with the state
reached at that point (every rejection happens before any write). -/
def completeCore (db : DB) (userId taskId : Nat) (answer today : String) :
    Option String × DB :=
  match db.tasks.find? (fun t => t.id == taskId && t.active) with
  | none => (some "Task not found", db)
  | some task =>
    match db.daily_tasks.find? (fun d =>
      d.user_id == userId && d.day == today && d.task_id == taskId) with
    | none => (some "Task not assigned for today", db)
    | some _ =>
      if 5 ≤ dailyCount db userId today then
        (some "Daily limit reached (5 tasks/day)", db)
      else
        (none,
          referralStep
            (creditBalanceWrite
              (insertCompletionWrite db userId taskId task.reward_ksh answer today)
              userId task.reward_ksh)
            userId)

/-- The full POST /api/tasks/:id/complete handler (index.js lines 269-313):
it first awaits `purgeDeletedAccounts`, then runs the completion body. -/
def completeTask (now : Nat) (db : DB) (userId taskId : Nat)
    (answer today : String) : Option String × DB :=
  completeCore (purgeDeletedAccounts now db) userId taskId answer today

/-- The POST /api/withdrawals handler (index.js lines 337-363).  The zod
schema requires a positive amount, a phone of length at least 6 and a method
of length at least 2; then the handler rejects when balance_ksh < amount,
else inserts a pending withdrawal row and debits the balance.  Amounts are
integer currency units (`amount_ksh INTEGER`), on which the source's
`Math.floor` is the identity. -/
def requestWithdrawal (db : DB) (userId : Nat) (amount : Int)
    (phone method : String) : Option String × DB :=
  if ¬ (0 < amount ∧ 6 ≤ phone.length ∧ 2 ≤ method.length) then
    (some "Bad request", db)
  else
    match findUser db userId with
    | none => (some "User not found", db)
    | some u =>
      if u.balance_ksh < amount then (some "Insufficient balance", db)
      else
        (none,
          updateBalance
            { db with withdrawals :=
                db.withdrawals ++ [⟨userId, amount, phone, method, WStatus.pending⟩] }
            userId (-amount))

/-- The POST /api/referrals/redeem handler (index.js lines 218-226): reject
unless bonus_ksh has reached 1000, else move 1000 from bonus to balance. -/
def redeemBonus (db : DB) (userId : Nat) : Option String × DB :=
  match findUser db userId with
  | none => (some "User not found", db)
  | some u =>
    if u.bonus_ksh < 1000 then
      (some "Bonus must reach KSH 1000 to redeem", db)
    else
      (none,
        { db with users := db.users.map (fun x =>
            if x.id == userId then
              { x with bonus_ksh := x.bonus_ksh - 1000,
                       balance_ksh := x.balance_ksh + 1000 }
            else x) })

/-- SELECT t.* FROM daily_tasks d JOIN tasks t ON t.id = d.task_id WHERE
d.user_id = ? AND d.day = ?. -/
def existingJoin (db : DB) (userId : Nat) (today : String) : List Task :=
  db.daily_tasks.filterMap (fun d =>
    if d.user_id == userId && d.day == today then
      db.tasks.find? (fun t => t.id == d.task_id)
    else none)

/-- INSERT OR IGNORE INTO daily_tasks (user_id, day, task_id): insert the
row unless the UNIQUE(user_id, day, task_id) constraint already holds a
matching row. -/
def insertIgnoreDaily (db : DB) (row : DailyTask) : DB :=
  if db.daily_tasks.any (fun d =>
      d.user_id == row.user_id && d.day == row.day && d.task_id == row.task_id) then
    db
  else { db with daily_tasks := db.daily_tasks ++ [row] }

/-- `ensureDailyTasks` (index.js lines 229-248).  The source draws tasks
with ORDER BY RANDOM(); the random shuffle is passed in explicitly as a
permutation `shuffle` of the active-task list.  If at least 5 assignments
exist for (user, day) they are returned unchanged (first 5); otherwise the
handler deletes the day's assignments, picks the first 5 of the shuffled
active tasks, inserts each under the uniqueness constraint, and returns the
picked list. -/
def ensureDailyTasks (shuffle : List Task → List Task) (db : DB)
    (userId : Nat) (today : String) : DB × List Task :=
  let existing := existingJoin db userId today
  if 5 ≤ existing.length then (db, existing.take 5)
  else
    let db1 := { db with daily_tasks := db.daily_tasks.filter (fun d =>
      !(d.user_id == userId && d.day == today)) }
    let picked := (shuffle (db.tasks.filter (fun t => t.active))).take 5
    (picked.foldl (fun acc t => insertIgnoreDaily acc ⟨userId, today, t.id⟩) db1,
     picked)

/-- `dayUTC` (index.js lines 18-20): `new Date().toISOString().slice(0, 10)`
formats the UTC calendar date of the instant, so two instants receive the
same key iff they lie in the same UTC day.  Instants are epoch seconds; the
key is represented by the UTC day number `t / 86400` (the YYYY-MM-DD string
is determined by, and determines, this number). -/
def dayUTC (t : Nat) : Nat := t / 86400

/-- Modelled from `untilMidnight` in the client Tasks page
(src/unnamed/part_000 lines 189-199): Nairobi local time is UTC + 3 hours,
and the advertised reset boundary is Nairobi local midnight, so the Nairobi
calendar-day number of an epoch instant is `(t + 3*3600) / 86400`. -/
def nairobiDay (t : Nat) : Nat := (t + 3 * 3600) / 86400

/-- Every user row carries nonnegative spendable and bonus balances. -/
def BalancesNonneg (db : DB) : Prop :=
  ∀ u ∈ db.users, 0 ≤ u.balance_ksh ∧ 0 ≤ u.bonus_ksh

/-- Every catalog task has a nonnegative reward amount (the spec's task
definitions carry positive integer rewards; the seeded catalog uses 10-30). -/
def RewardsNonneg (db : DB) : Prop :=
  ∀ t ∈ db.tasks, 0 ≤ t.reward_ksh

/-- User ids are pairwise distinct (`id INTEGER PRIMARY KEY`). -/
def UsersNodupIds (db : DB) : Prop :=
  (db.users.map User.id).Nodup

/-- No row of any table references user id `uid`: the post-purge condition
for a deleted account. -/
def PurgedClean (db : DB) (uid : Nat) : Prop :=
  (∀ c ∈ db.task_completions, c.user_id ≠ uid) ∧
  (∀ w ∈ db.withdrawals, w.user_id ≠ uid) ∧
  (∀ d ∈ db.daily_tasks, d.user_id ≠ uid) ∧
  (∀ r ∈ db.referral_rewards, r.referrer_id ≠ uid ∧ r.referred_user_id ≠ uid) ∧
  (∀ u ∈ db.users, u.id ≠ uid)

/-- One state transition of the engine: any of the mutating operations,
with arbitrary request arguments and clock inputs. -/
inductive Step : DB → DB → Prop where
  | complete (now uid tid : Nat) (ans today : String) (db : DB) :
      Step db (completeTask now db uid tid ans today).2
  | withdraw (uid : Nat) (amount : Int) (phone method : String) (db : DB) :
      Step db (requestWithdrawal db uid amount phone method).2
  | redeem (uid : Nat) (db : DB) :
      Step db (redeemBonus db uid).2
  | ensure (shuffle : List Task → List Task) (uid : Nat) (today : String) (db : DB) :
      Step db (ensureDailyTasks shuffle db uid today).1
  | purge (now : Nat) (db : DB) :
      Step db (purgeDeletedAccounts now db)

/-- One user, one assigned active task, nothing completed yet. -/
def exDb1 : DB :=
  { users := [⟨1, none, 0, 0, none⟩],
    tasks := [⟨10, "audio", 7, true⟩],
    daily_tasks := [⟨1, "d1", 10⟩],
    task_completions := [],
    referral_rewards := [],
    withdrawals := [] }

/-- User 2 was referred by user 1 and has two assigned active tasks. -/
def exDb3 : DB :=
  { users := [⟨1, none, 0, 0, none⟩, ⟨2, some 1, 0, 0, none⟩],
    tasks := [⟨10, "audio", 7, true⟩, ⟨11, "video", 9, true⟩],
    daily_tasks := [⟨2, "d1", 10⟩, ⟨2, "d1", 11⟩],
    task_completions := [],
    referral_rewards := [],
    withdrawals := [] }

/-- One user with spendable balance 500. -/
def exDb4 : DB :=
  { users := [⟨1, none, 500, 0, none⟩],
    tasks := [],
    daily_tasks := [],
    task_completions := [],
    referral_rewards := [],
    withdrawals := [] }

/-- A catalog holding two active tasks of the same category. -/
def exDb5 : DB :=
  { users := [⟨1, none, 0, 0, none⟩],
    tasks := [⟨1, "audio", 10, true⟩, ⟨2, "audio", 12, true⟩],
    daily_tasks := [],
    task_completions := [],
    referral_rewards := [],
    withdrawals := [] }

/-- A catalog holding a single active task. -/
def exDb6a : DB :=
  { users := [⟨1, none, 0, 0, none⟩],
    tasks := [⟨1, "audio", 10, true⟩],
    daily_tasks := [],
    task_completions := [],
    referral_rewards := [],
    withdrawals := [] }

/-- The state after allocating user 1's day from `exDb6a` (task 1 assigned),
followed by a catalog change: task 1 is deactivated and task 2 added. -/
def exDb6b : DB :=
  { (ensureDailyTasks (fun l => l) exDb6a 1 "d1").1 with
    tasks := [⟨1, "audio", 10, false⟩, ⟨2, "video", 12, true⟩] }

/-- One user with bonus balance 1000, eligible to redeem. -/
def exDb8 : DB :=
  { users := [⟨1, none, 50, 1000, none⟩],
    tasks := [],
    daily_tasks := [],
    task_completions := [],
    referral_rewards := [],
    withdrawals := [] }

/-- User 2's deletion deadline (epoch second 100) has passed at now = 200;
rows of every kind reference user 2, plus rows of the surviving user 1. -/
def exDb9 : DB :=
  { users := [⟨1, none, 5, 0, none⟩, ⟨2, none, 9, 3, some 100⟩],
    tasks := [⟨10, "audio", 7, true⟩],
    daily_tasks := [⟨1, "d1", 10⟩, ⟨2, "d1", 10⟩],
    task_completions := [⟨2, 10, 7, "a", "d1"⟩],
    referral_rewards := [⟨1, 2⟩, ⟨2, 1⟩],
    withdrawals := [⟨2, 4, "0712345678", "mpesa", WStatus.pending⟩] }

/-- User 1 already holds 5 completion records dated day d1 and still has an
assigned active task. -/
def exDb10 : DB :=
  { users := [⟨1, none, 35, 0, none⟩],
    tasks := [⟨10, "audio", 7, true⟩],
    daily_tasks := [⟨1, "d1", 10⟩],
    task_completions :=
      [⟨1, 10, 7, "a", "d1"⟩, ⟨1, 10, 7, "b", "d1"⟩, ⟨1, 10, 7, "c", "d1"⟩,
       ⟨1, 10, 7, "d", "d1"⟩, ⟨1, 10, 7, "e", "d1"⟩],
    referral_rewards := [],
    withdrawals := [] }

/-! General lemmas about the embedded operations. -/

theorem findUser_updateBalance (db : DB) (x y : Nat) (delta : Int) :
    findUser (updateBalance db x delta) y
      = (findUser db y).map (fun u =>
          if u.id == x then { u with balance_ksh := u.balance_ksh + delta } else u) := by
  have hpred : ((fun u : User => u.id == y) ∘ (fun u : User =>
      if u.id == x then { u with balance_ksh := u.balance_ksh + delta } else u))
      = (fun u : User => u.id == y) := by
    funext u
    by_cases h : u.id = x <;> simp [h]
  unfold findUser updateBalance
  rw [List.find?_map, hpred]

theorem findUser_updateBonus (db : DB) (x y : Nat) (delta : Int) :
    findUser (updateBonus db x delta) y
      = (findUser db y).map (fun u =>
          if u.id == x then { u with bonus_ksh := u.bonus_ksh + delta } else u) := by
  have hpred : ((fun u : User => u.id == y) ∘ (fun u : User =>
      if u.id == x then { u with bonus_ksh := u.bonus_ksh + delta } else u))
      = (fun u : User => u.id == y) := by
    funext u
    by_cases h : u.id = x <;> simp [h]
  unfold findUser updateBonus
  rw [List.find?_map, hpred]

theorem bonusOf_updateBalance (db : DB) (x y : Nat) (delta : Int) :
    bonusOf (updateBalance db x delta) y = bonusOf db y := by
  unfold bonusOf
  rw [findUser_updateBalance]
  cases h : findUser db y with
  | none => rfl
  | some u => by_cases hx : u.id = x <;> simp [hx]

theorem balanceOf_updateBonus (db : DB) (x y : Nat) (delta : Int) :
    balanceOf (updateBonus db x delta) y = balanceOf db y := by
  unfold balanceOf
  rw [findUser_updateBonus]
  cases h : findUser db y with
  | none => rfl
  | some u => by_cases hx : u.id = x <;> simp [hx]

theorem balanceOf_updateBalance_self (db : DB) (x : Nat) (delta : Int) :
    balanceOf (updateBalance db x delta) x = (balanceOf db x).map (fun b => b + delta) := by
  unfold balanceOf
  rw [findUser_updateBalance]
  cases h : findUser db x with
  | none => rfl
  | some u =>
    have h' : db.users.find? (fun u => u.id == x) = some u := h
    have hp : (u.id == x) = true := @List.find?_some User (fun u => u.id == x) u db.users h'
    have hx : u.id = x := by simpa using hp
    simp [hx]

theorem bonusOf_updateBonus_self (db : DB) (x : Nat) (delta : Int) :
    bonusOf (updateBonus db x delta) x = (bonusOf db x).map (fun b => b + delta) := by
  unfold bonusOf
  rw [findUser_updateBonus]
  cases h : findUser db x with
  | none => rfl
  | some u =>
    have h' : db.users.find? (fun u => u.id == x) = some u := h
    have hp : (u.id == x) = true := @List.find?_some User (fun u => u.id == x) u db.users h'
    have hx : u.id = x := by simpa using hp
    simp [hx]

theorem referredBy_findUser_updateBalance (db : DB) (x y : Nat) (delta : Int) :
    (findUser (updateBalance db x delta) y).map User.referred_by
      = (findUser db y).map User.referred_by := by
  rw [findUser_updateBalance]
  cases h : findUser db y with
  | none => rfl
  | some u => by_cases hx : u.id = x <;> simp [hx]

theorem find?_id_self : ∀ (l : List Task), (l.map Task.id).Nodup →
    ∀ t ∈ l, l.find? (fun x => x.id == t.id) = some t := by
  intro l
  induction l with
  | nil => intro _ t ht; cases ht
  | cons a l ih =>
    intro hnd t ht
    rcases List.mem_cons.mp ht with rfl | hmem
    · exact List.find?_cons_of_pos _ (by simp)
    · have hne : a.id ≠ t.id := by
        intro he
        have : t.id ∈ l.map Task.id := List.mem_map_of_mem _ hmem
        rw [← he] at this
        exact (List.nodup_cons.mp (by simpa using hnd)).1 this
      rw [List.find?_cons_of_neg _ (by simpa using hne)]
      exact ih (List.nodup_cons.mp (by simpa using hnd)).2 t hmem

theorem findUnique (l : List User) (uid : Nat) (usr : User)
    (hnd : (l.map User.id).Nodup)
    (hf : l.find? (fun u => u.id == uid) = some usr) :
    ∀ x ∈ l, x.id = uid → x = usr := by
  induction l with
  | nil => simp at hf
  | cons a l ih =>
    intro x hx hxid
    by_cases ha : a.id = uid
    · rw [List.find?_cons_of_pos _ (by simpa using ha)] at hf
      cases hf
      rcases List.mem_cons.mp hx with rfl | hmem
      · rfl
      · exfalso
        have : x.id ∈ l.map User.id := List.mem_map_of_mem _ hmem
        rw [hxid, ← ha] at this
        exact (List.nodup_cons.mp (by simpa using hnd)).1 this
    · rw [List.find?_cons_of_neg _ (by simpa using ha)] at hf
      rcases List.mem_cons.mp hx with rfl | hmem
      · exact absurd hxid ha
      · exact ih (List.nodup_cons.mp (by simpa using hnd)).2 hf x hmem hxid

theorem purgeUser_clean (db : DB) (uid : Nat) : PurgedClean (purgeUser db uid) uid := by
  unfold PurgedClean purgeUser
  refine ⟨?_, ?_, ?_, ?_, ?_⟩ <;> intro r hr <;> simp only [List.mem_filter] at hr
  · simpa using hr.2
  · simpa using hr.2
  · simpa using hr.2
  · simpa using hr.2
  · simpa using hr.2

theorem purgeUser_preserves_clean (db : DB) (uid v : Nat)
    (h : PurgedClean db v) : PurgedClean (purgeUser db uid) v := by
  obtain ⟨h1, h2, h3, h4, h5⟩ := h
  unfold PurgedClean purgeUser
  refine ⟨?_, ?_, ?_, ?_, ?_⟩ <;> intro r hr <;> simp only [List.mem_filter] at hr
  · exact h1 r hr.1
  · exact h2 r hr.1
  · exact h3 r hr.1
  · exact h4 r hr.1
  · exact h5 r hr.1

theorem foldl_purge_preserves_clean (v : Nat) :
    ∀ (ids : List Nat) (db : DB), PurgedClean db v →
      PurgedClean (ids.foldl purgeUser db) v := by
  intro ids
  induction ids with
  | nil => intro db h; exact h
  | cons a t ih => intro db h; exact ih _ (purgeUser_preserves_clean db a v h)

theorem foldl_purge_clean (uid : Nat) :
    ∀ (ids : List Nat) (db : DB), uid ∈ ids →
      PurgedClean (ids.foldl purgeUser db) uid := by
  intro ids
  induction ids with
  | nil => intro db h; cases h
  | cons a t ih =>
    intro db h
    rcases List.mem_cons.mp h with rfl | hmem
    · exact foldl_purge_preserves_clean uid t _ (purgeUser_clean db uid)
    · exact ih _ hmem

theorem purge_users_subset (now : Nat) (db : DB) :
    ∀ u ∈ (purgeDeletedAccounts now db).users, u ∈ db.users := by
  unfold purgeDeletedAccounts
  generalize doomedIds now db = ids
  induction ids generalizing db with
  | nil => intro u hu; exact hu
  | cons a t ih =>
    intro u hu
    have := ih (purgeUser db a) u hu
    unfold purgeUser at this
    exact (List.mem_filter.mp this).1

theorem purge_tasks_eq (now : Nat) (db : DB) :
    (purgeDeletedAccounts now db).tasks = db.tasks := by
  unfold purgeDeletedAccounts
  generalize doomedIds now db = ids
  induction ids generalizing db with
  | nil => rfl
  | cons a t ih => exact ih (purgeUser db a)

theorem foldl_insert_users (u : Nat) (d : String) :
    ∀ (ts : List Task) (db : DB),
      (ts.foldl (fun acc t => insertIgnoreDaily acc ⟨u, d, t.id⟩) db).users = db.users := by
  intro ts
  induction ts with
  | nil => intro db; rfl
  | cons a t ih =>
    intro db
    rw [List.foldl_cons, ih]
    unfold insertIgnoreDaily
    split <;> rfl

theorem foldl_insert_tasks (u : Nat) (d : String) :
    ∀ (ts : List Task) (db : DB),
      (ts.foldl (fun acc t => insertIgnoreDaily acc ⟨u, d, t.id⟩) db).tasks = db.tasks := by
  intro ts
  induction ts with
  | nil => intro db; rfl
  | cons a t ih =>
    intro db
    rw [List.foldl_cons, ih]
    unfold insertIgnoreDaily
    split <;> rfl

theorem foldl_insert_daily (u : Nat) (d : String) :
    ∀ (ts : List Task) (db : DB),
      (∀ t ∈ ts, ∀ row ∈ db.daily_tasks,
        ¬(row.user_id = u ∧ row.day = d ∧ row.task_id = t.id)) →
      (ts.map Task.id).Nodup →
      (ts.foldl (fun acc t => insertIgnoreDaily acc ⟨u, d, t.id⟩) db).daily_tasks
        = db.daily_tasks ++ ts.map (fun t => DailyTask.mk u d t.id) := by
  intro ts
  induction ts with
  | nil => intro db _ _; simp
  | cons a t ih =>
    intro db hfresh hnd
    rw [List.foldl_cons]
    have hany : (db.daily_tasks.any (fun r =>
        r.user_id == u && r.day == d && r.task_id == a.id)) = false := by
      rw [List.any_eq_false]
      intro r hr
      have := hfresh a (List.mem_cons_self a t) r hr
      simpa using fun h1 h2 h3 => this ⟨h1, h2, h3⟩
    have hstep : insertIgnoreDaily db ⟨u, d, a.id⟩
        = { db with daily_tasks := db.daily_tasks ++ [⟨u, d, a.id⟩] } := by
      unfold insertIgnoreDaily
      rw [if_neg]
      simp [hany]
    rw [hstep]
    have hnd' : (t.map Task.id).Nodup := (List.nodup_cons.mp (by simpa using hnd)).2
    have hfresh' : ∀ x ∈ t, ∀ row ∈ db.daily_tasks ++ [DailyTask.mk u d a.id],
        ¬(row.user_id = u ∧ row.day = d ∧ row.task_id = x.id) := by
      intro x hx row hrow
      rcases List.mem_append.mp hrow with hold | hnew
      · exact hfresh x (List.mem_cons_of_mem a hx) row hold
      · have : row = DailyTask.mk u d a.id := by simpa using hnew
        subst this
        intro hcon
        have hne : a.id ≠ x.id := by
          intro he
          have : x.id ∈ t.map Task.id := List.mem_map_of_mem _ hx
          rw [← he] at this
          exact (List.nodup_cons.mp (by simpa using hnd)).1 this
        exact hne (by simpa using hcon.2.2)
    have := ih { db with daily_tasks := db.daily_tasks ++ [DailyTask.mk u d a.id] }
      hfresh' hnd'
    rw [this]
    simp

theorem filterMap_of_map_some {α β : Type} (f : β → Option α) (g : α → β) :
    ∀ (ts : List α), (∀ t ∈ ts, f (g t) = some t) → (ts.map g).filterMap f = ts := by
  intro ts
  induction ts with
  | nil => intro _; rfl
  | cons a t ih =>
    intro h
    rw [List.map_cons, List.filterMap_cons, h a (List.mem_cons_self a t),
      ih (fun x hx => h x (List.mem_cons_of_mem a hx))]

theorem referralStep_completions (db : DB) (u : Nat) :
    (referralStep db u).task_completions = db.task_completions := by
  unfold referralStep
  split
  · rfl
  · split
    · rfl
    · split
      · split <;> rfl
      · rfl

theorem referralStep_daily (db : DB) (u : Nat) :
    (referralStep db u).daily_tasks = db.daily_tasks := by
  unfold referralStep
  split
  · rfl
  · split
    · rfl
    · split
      · split <;> rfl
      · rfl

theorem dailyCount_insert (db : DB) (uid tid : Nat) (reward : Int) (ans today : String) :
    dailyCount (insertCompletionWrite db uid tid reward ans today) uid today
      = dailyCount db uid today + 1 := by
  unfold dailyCount insertCompletionWrite
  rw [List.filter_append]
  simp

theorem totalCompletions_insert (db : DB) (uid tid : Nat) (reward : Int) (ans today : String) :
    totalCompletions (insertCompletionWrite db uid tid reward ans today) uid
      = totalCompletions db uid + 1 := by
  unfold totalCompletions insertCompletionWrite
  rw [List.filter_append]
  simp

theorem balancesNonneg_updateBalance (db : DB) (x : Nat) (delta : Int)
    (hd : 0 ≤ delta) (h : BalancesNonneg db) : BalancesNonneg (updateBalance db x delta) := by
  intro u hu
  simp only [updateBalance, List.mem_map] at hu
  obtain ⟨v, hv, rfl⟩ := hu
  obtain ⟨h1, h2⟩ := h v hv
  by_cases hx : v.id = x <;> simp [hx] <;> constructor <;> omega

theorem balancesNonneg_updateBonus (db : DB) (x : Nat) (delta : Int)
    (hd : 0 ≤ delta) (h : BalancesNonneg db) : BalancesNonneg (updateBonus db x delta) := by
  intro u hu
  simp only [updateBonus, List.mem_map] at hu
  obtain ⟨v, hv, rfl⟩ := hu
  obtain ⟨h1, h2⟩ := h v hv
  by_cases hx : v.id = x <;> simp [hx] <;> constructor <;> omega

theorem referralStep_balances (db : DB) (u : Nat) (hb : BalancesNonneg db) :
    BalancesNonneg (referralStep db u) := by
  unfold referralStep
  split
  · exact hb
  · split
    · exact hb
    · split
      · split
        · exact hb
        · exact balancesNonneg_updateBonus _ _ _ (by norm_num) (fun x hx => hb x hx)
      · exact hb

theorem purge_balances (now : Nat) (db : DB) (hb : BalancesNonneg db) :
    BalancesNonneg (purgeDeletedAccounts now db) :=
  fun u hu => hb u (purge_users_subset now db u hu)

theorem completeCore_balances (db : DB) (uid tid : Nat) (ans today : String)
    (hr : RewardsNonneg db) (hb : BalancesNonneg db) :
    BalancesNonneg (completeCore db uid tid ans today).2 := by
  unfold completeCore
  cases htask : db.tasks.find? (fun x => x.id == tid && x.active) with
  | none => exact hb
  | some task =>
    cases hass : db.daily_tasks.find? (fun d =>
        d.user_id == uid && d.day == today && d.task_id == tid) with
    | none => exact hb
    | some row =>
      simp only []
      by_cases hcap : 5 ≤ dailyCount db uid today
      · rw [if_pos hcap]
        exact hb
      · rw [if_neg hcap]
        have hrew : 0 ≤ task.reward_ksh := by
          have hmem := List.mem_of_find?_eq_some htask
          exact hr task hmem
        apply referralStep_balances
        apply balancesNonneg_updateBalance _ _ _ hrew
        intro x hx
        exact hb x hx

theorem redeem_balances (db : DB) (uid : Nat)
    (hn : UsersNodupIds db) (hb : BalancesNonneg db) :
    BalancesNonneg (redeemBonus db uid).2 := by
  unfold redeemBonus
  cases hu : findUser db uid with
  | none => exact hb
  | some usr =>
    simp only []
    by_cases hbon : usr.bonus_ksh < 1000
    · rw [if_pos hbon]
      exact hb
    · rw [if_neg hbon]
      intro x hx
      simp only [List.mem_map] at hx
      obtain ⟨v, hv, rfl⟩ := hx
      obtain ⟨h1, h2⟩ := hb v hv
      by_cases hvx : v.id = uid
      · have hveq : v = usr := findUnique db.users uid usr hn hu v hv hvx
        subst hveq
        simp [hvx]
        constructor <;> omega
      · simp [hvx]
        constructor <;> omega

theorem withdraw_balances (db : DB) (uid : Nat) (amount : Int) (phone method : String)
    (hn : UsersNodupIds db) (hb : BalancesNonneg db) :
    BalancesNonneg (requestWithdrawal db uid amount phone method).2 := by
  unfold requestWithdrawal
  by_cases hval : ¬(0 < amount ∧ 6 ≤ phone.length ∧ 2 ≤ method.length)
  · rw [if_pos hval]
    exact hb
  · rw [if_neg hval]
    cases hu : findUser db uid with
    | none => exact hb
    | some usr =>
      simp only []
      by_cases hlt : usr.balance_ksh < amount
      · rw [if_pos hlt]
        exact hb
      · rw [if_neg hlt]
        intro x hx
        simp only [updateBalance, List.mem_map] at hx
        obtain ⟨v, hv, rfl⟩ := hx
        have hv' : v ∈ db.users := hv
        obtain ⟨h1, h2⟩ := hb v hv'
        by_cases hvx : v.id = uid
        · have hveq : v = usr := findUnique db.users uid usr hn hu v hv' hvx
          subst hveq
          simp [hvx]
          constructor <;> omega
        · simp [hvx]
          constructor <;> omega

theorem ensure_users (shuffle : List Task → List Task) (db : DB) (u : Nat) (d : String) :
    (ensureDailyTasks shuffle db u d).1.users = db.users := by
  unfold ensureDailyTasks
  simp only []
  split
  · rfl
  · rw [foldl_insert_users]

theorem ensure_frozen (s : List Task → List Task) (db : DB) (u : Nat) (d : String)
    (h5 : 5 ≤ (existingJoin db u d).length) :
    ensureDailyTasks s db u d = (db, (existingJoin db u d).take 5) := by
  unfold ensureDailyTasks
  simp only []
  rw [if_pos h5]

theorem ensure_alloc_eq (s : List Task → List Task) (db : DB) (u : Nat) (d : String)
    (h5 : ¬ 5 ≤ (existingJoin db u d).length) :
    ensureDailyTasks s db u d
      = (((s (db.tasks.filter (fun t => t.active))).take 5).foldl
           (fun acc t => insertIgnoreDaily acc ⟨u, d, t.id⟩)
           { db with daily_tasks := db.daily_tasks.filter (fun r =>
               !(r.user_id == u && r.day == d)) },
         (s (db.tasks.filter (fun t => t.active))).take 5) := by
  unfold ensureDailyTasks
  simp only []
  rw [if_neg h5]

theorem picked_nodup_ids (s : List Task → List Task) (db : DB)
    (hn : (db.tasks.map Task.id).Nodup) (hp : ∀ l, List.Perm (s l) l) :
    (((s (db.tasks.filter (fun t => t.active))).take 5).map Task.id).Nodup := by
  have h1 : ((db.tasks.filter (fun t => t.active)).map Task.id).Nodup :=
    hn.sublist ((List.filter_sublist db.tasks).map Task.id)
  have h2 : ((s (db.tasks.filter (fun t => t.active))).map Task.id).Nodup :=
    (((hp (db.tasks.filter (fun t => t.active))).map Task.id).nodup_iff).mpr h1
  exact h2.sublist ((List.take_sublist 5 _).map Task.id)

theorem picked_subset (s : List Task → List Task) (db : DB)
    (hp : ∀ l, List.Perm (s l) l) :
    ∀ t ∈ (s (db.tasks.filter (fun t => t.active))).take 5, t ∈ db.tasks := by
  intro t ht
  have h1 : t ∈ s (db.tasks.filter (fun t => t.active)) := List.take_subset 5 _ ht
  have h2 : t ∈ db.tasks.filter (fun t => t.active) :=
    ((hp (db.tasks.filter (fun t => t.active))).mem_iff).mp h1
  exact (List.mem_filter.mp h2).1

theorem join_after_alloc (s : List Task → List Task) (db : DB) (u : Nat) (d : String)
    (hn : (db.tasks.map Task.id).Nodup) (hp : ∀ l, List.Perm (s l) l) :
    existingJoin
      (((s (db.tasks.filter (fun t => t.active))).take 5).foldl
        (fun acc t => insertIgnoreDaily acc ⟨u, d, t.id⟩)
        { db with daily_tasks := db.daily_tasks.filter (fun r =>
            !(r.user_id == u && r.day == d)) }) u d
      = (s (db.tasks.filter (fun t => t.active))).take 5 := by
  have hnd := picked_nodup_ids s db hn hp
  have hsub := picked_subset s db hp
  have hfresh : ∀ t ∈ (s (db.tasks.filter (fun t => t.active))).take 5,
      ∀ row ∈ ({ db with daily_tasks := db.daily_tasks.filter (fun r =>
          !(r.user_id == u && r.day == d)) } : DB).daily_tasks,
      ¬(row.user_id = u ∧ row.day = d ∧ row.task_id = t.id) := by
    intro t _ row hrow hcon
    have h2 := (List.mem_filter.mp hrow).2
    simp at h2
    rcases h2 with h | h
    · exact h hcon.1
    · exact h hcon.2.1
  have hfold := foldl_insert_daily u d
    ((s (db.tasks.filter (fun t => t.active))).take 5)
    { db with daily_tasks := db.daily_tasks.filter (fun r =>
        !(r.user_id == u && r.day == d)) } hfresh hnd
  have htasks := foldl_insert_tasks u d
    ((s (db.tasks.filter (fun t => t.active))).take 5)
    { db with daily_tasks := db.daily_tasks.filter (fun r =>
        !(r.user_id == u && r.day == d)) }
  unfold existingJoin
  rw [htasks, hfold]
  rw [List.filterMap_append]
  have hbase : (db.daily_tasks.filter (fun r =>
      !(r.user_id == u && r.day == d))).filterMap (fun r =>
        if r.user_id == u && r.day == d then
          db.tasks.find? (fun t => t.id == r.task_id)
        else none) = [] := by
    rw [List.filterMap_eq_nil_iff]
    intro r hr
    have h2 := (List.mem_filter.mp hr).2
    have hcond : (r.user_id == u && r.day == d) = false := by
      have h3 : ¬r.user_id = u ∨ ¬r.day = d := by simpa using h2
      rcases h3 with h | h <;> simp [h]
    rw [hcond]
    rfl
  rw [hbase, List.nil_append]
  apply filterMap_of_map_some
  intro t ht
  have hcond : (((DailyTask.mk u d t.id).user_id == u
      && (DailyTask.mk u d t.id).day == d)) = true := by simp
  rw [hcond]
  simp only [if_true]
  exact find?_id_self db.tasks hn t (hsub t ht)

theorem ensure_tasks_eq (s : List Task → List Task) (db : DB) (u : Nat) (d : String) :
    (ensureDailyTasks s db u d).1.tasks = db.tasks := by
  unfold ensureDailyTasks
  simp only []
  split
  · rfl
  · rw [foldl_insert_tasks]

/-! Claim theorems. -/

/-- C1: the claim says a completion attempt on an already-completed assignment is
rejected with no second CompletionRecord and no second credit.  The handler has no
already-completed check: starting from a state where user 1 already completed task 10
today (after the first call), the second call for the same (user, day, task) succeeds,
inserts a second completion record and credits the reward again (balance 14 = 2 x 7). -/
theorem C1_double_completion_accepted :
    (completeTask 0 exDb1 1 10 "ans" "d1").1 = none ∧
    totalCompletions (completeTask 0 exDb1 1 10 "ans" "d1").2 1 = 1 ∧
    (completeTask 0 (completeTask 0 exDb1 1 10 "ans" "d1").2 1 10 "ans" "d1").1 = none ∧
    totalCompletions (completeTask 0 (completeTask 0 exDb1 1 10 "ans" "d1").2 1 10 "ans" "d1").2 1 = 2 ∧
    balanceOf (completeTask 0 (completeTask 0 exDb1 1 10 "ans" "d1").2 1 10 "ans" "d1").2 1 = some 14 := by
  decide

/-- C2: the claim says the completion commit is all-or-nothing.  The handler issues the
completion-record insert and the balance update as two separate non-transactional
statements (and never writes a completed marker on the assignment).  At a state where
the checks pass (the full call succeeds), the state reached after only the first write
(the record insert) holds a completion record while the balance is still 0: a
completion record without its credit, which the claim says can never exist. -/
theorem C2_partial_commit_state :
    (completeTask 0 exDb1 1 10 "ans" "d1").1 = none ∧
    totalCompletions (insertCompletionWrite (purgeDeletedAccounts 0 exDb1) 1 10 7 "ans" "d1") 1 = 1 ∧
    balanceOf (insertCompletionWrite (purgeDeletedAccounts 0 exDb1) 1 10 7 "ans" "d1") 1 = some 0 := by
  decide

/-- C3: for a successful completion by a referred user (referred_by = refId after the
handler's purge), the referrer's bonus is credited 100 exactly once, on the user's
first-ever completion with no prior grant row; any later completion, or a pre-existing
grant row for the pair, leaves the grant table and the referrer's bonus unchanged. -/
theorem C3_referral_bonus_exactly_once (now : Nat) (db dbp db' : DB) (uid tid refId : Nat) (ans today : String)
    (hdbp : purgeDeletedAccounts now db = dbp)
    (href : (findUser dbp uid).map User.referred_by = some (some refId))
    (hok : completeTask now db uid tid ans today = (none, db')) :
    totalCompletions db' uid = totalCompletions dbp uid + 1 ∧
    (totalCompletions dbp uid = 0 → grantCount dbp refId uid = 0 →
       grantCount db' refId uid = 1 ∧
       bonusOf db' refId = (bonusOf dbp refId).map (fun b => b + 100)) ∧
    (totalCompletions dbp uid ≠ 0 →
       db'.referral_rewards = dbp.referral_rewards ∧
       bonusOf db' refId = bonusOf dbp refId) ∧
    (grantCount dbp refId uid ≠ 0 →
       db'.referral_rewards = dbp.referral_rewards ∧
       bonusOf db' refId = bonusOf dbp refId) := by
  unfold completeTask at hok
  rw [hdbp] at hok
  unfold completeCore at hok
  cases htask : dbp.tasks.find? (fun x => x.id == tid && x.active) with
  | none =>
    rw [htask] at hok
    simp at hok
  | some task =>
    rw [htask] at hok
    cases hass : dbp.daily_tasks.find? (fun d =>
        d.user_id == uid && d.day == today && d.task_id == tid) with
    | none =>
      rw [hass] at hok
      simp at hok
    | some row =>
      rw [hass] at hok
      simp only [] at hok
      by_cases hcap : 5 ≤ dailyCount dbp uid today
      · rw [if_pos hcap] at hok
        simp at hok
      · rw [if_neg hcap] at hok
        have hdb' : db' = referralStep
            (creditBalanceWrite
              (insertCompletionWrite dbp uid tid task.reward_ksh ans today)
              uid task.reward_ksh) uid := by
          have h2 := (Prod.mk.injEq _ _ _ _).mp hok
          exact h2.2.symm
        subst hdb'
        obtain ⟨me, hme, hmeref⟩ : ∃ me, findUser dbp uid = some me ∧
            me.referred_by = some refId := by
          cases hme : findUser dbp uid with
          | none => rw [hme] at href; simp at href
          | some me =>
            rw [hme] at href
            exact ⟨me, rfl, by simpa using href⟩
        have hme1 : findUser (insertCompletionWrite dbp uid tid task.reward_ksh ans today)
            uid = some me := hme
        have hfu2 : findUser (creditBalanceWrite
            (insertCompletionWrite dbp uid tid task.reward_ksh ans today)
            uid task.reward_ksh) uid
            = some (if me.id == uid then
                { me with balance_ksh := me.balance_ksh + task.reward_ksh } else me) := by
          unfold creditBalanceWrite
          rw [findUser_updateBalance, hme1]
          rfl
        have hme2ref : (if me.id == uid then
            { me with balance_ksh := me.balance_ksh + task.reward_ksh } else me).referred_by
            = some refId := by
          by_cases h : me.id = uid <;> simp [h, hmeref]
        have hcnt2 : totalCompletions (creditBalanceWrite
            (insertCompletionWrite dbp uid tid task.reward_ksh ans today)
            uid task.reward_ksh) uid = totalCompletions dbp uid + 1 :=
          totalCompletions_insert dbp uid tid task.reward_ksh ans today
        have hbon2 : ∀ y, bonusOf (creditBalanceWrite
            (insertCompletionWrite dbp uid tid task.reward_ksh ans today)
            uid task.reward_ksh) y = bonusOf dbp y := by
          intro y
          exact bonusOf_updateBalance
            (insertCompletionWrite dbp uid tid task.reward_ksh ans today) uid y task.reward_ksh
        by_cases hA : totalCompletions dbp uid = 0
        · have hc1 : (totalCompletions (creditBalanceWrite
              (insertCompletionWrite dbp uid tid task.reward_ksh ans today)
              uid task.reward_ksh) uid == 1) = true := by
            rw [hcnt2, hA]
            rfl
          by_cases hG : grantCount dbp refId uid = 0
          · have hfind : (creditBalanceWrite
                (insertCompletionWrite dbp uid tid task.reward_ksh ans today)
                uid task.reward_ksh).referral_rewards.find? (fun r =>
                  r.referrer_id == refId && r.referred_user_id == uid) = none := by
              rw [List.find?_eq_none]
              intro r hr hp
              have hnil : dbp.referral_rewards.filter (fun r =>
                  r.referrer_id == refId && r.referred_user_id == uid) = [] :=
                List.length_eq_zero.mp hG
              have : r ∈ dbp.referral_rewards.filter (fun r =>
                  r.referrer_id == refId && r.referred_user_id == uid) :=
                List.mem_filter.mpr ⟨hr, hp⟩
              rw [hnil] at this
              cases this
            have hrs : referralStep (creditBalanceWrite
                (insertCompletionWrite dbp uid tid task.reward_ksh ans today)
                uid task.reward_ksh) uid
                = updateBonus
                    { (creditBalanceWrite
                        (insertCompletionWrite dbp uid tid task.reward_ksh ans today)
                        uid task.reward_ksh) with
                      referral_rewards := dbp.referral_rewards ++ [⟨refId, uid⟩] }
                    refId 100 := by
              unfold referralStep
              rw [hfu2]
              simp only []
              rw [hme2ref]
              simp only []
              rw [if_pos hc1, hfind]
              rfl
            rw [hrs]
            refine ⟨?_, ?_, ?_, ?_⟩
            · show totalCompletions _ uid = _
              rw [show totalCompletions (updateBonus
                  { (creditBalanceWrite
                      (insertCompletionWrite dbp uid tid task.reward_ksh ans today)
                      uid task.reward_ksh) with
                    referral_rewards := dbp.referral_rewards ++ [⟨refId, uid⟩] }
                  refId 100) uid
                = totalCompletions (creditBalanceWrite
                    (insertCompletionWrite dbp uid tid task.reward_ksh ans today)
                    uid task.reward_ksh) uid from rfl]
              exact hcnt2
            · intro _ _
              constructor
              · show grantCount _ refId uid = 1
                unfold grantCount
                show (List.filter _ (dbp.referral_rewards ++ [⟨refId, uid⟩])).length = 1
                rw [List.filter_append]
                rw [List.length_append]
                have hz : (dbp.referral_rewards.filter (fun r =>
                    r.referrer_id == refId && r.referred_user_id == uid)).length = 0 := hG
                rw [hz]
                simp
              · rw [show bonusOf (updateBonus
                    { (creditBalanceWrite
                        (insertCompletionWrite dbp uid tid task.reward_ksh ans today)
                        uid task.reward_ksh) with
                      referral_rewards := dbp.referral_rewards ++ [⟨refId, uid⟩] }
                    refId 100) refId
                  = (bonusOf { (creditBalanceWrite
                      (insertCompletionWrite dbp uid tid task.reward_ksh ans today)
                      uid task.reward_ksh) with
                      referral_rewards := dbp.referral_rewards ++ [⟨refId, uid⟩] } refId).map
                      (fun b => b + 100) from bonusOf_updateBonus_self _ refId 100]
                have : bonusOf { (creditBalanceWrite
                    (insertCompletionWrite dbp uid tid task.reward_ksh ans today)
                    uid task.reward_ksh) with
                    referral_rewards := dbp.referral_rewards ++ [⟨refId, uid⟩] } refId
                    = bonusOf dbp refId := hbon2 refId
                rw [this]
            · intro hA'
              exact absurd hA hA'
            · intro hG'
              exact absurd hG hG'
          · obtain ⟨g, hg⟩ : ∃ g, (creditBalanceWrite
                (insertCompletionWrite dbp uid tid task.reward_ksh ans today)
                uid task.reward_ksh).referral_rewards.find? (fun r =>
                  r.referrer_id == refId && r.referred_user_id == uid) = some g := by
              have hne : dbp.referral_rewards.filter (fun r =>
                  r.referrer_id == refId && r.referred_user_id == uid) ≠ [] := by
                intro hnil
                apply hG
                show (dbp.referral_rewards.filter (fun r =>
                    r.referrer_id == refId && r.referred_user_id == uid)).length = 0
                rw [hnil]
                rfl
              obtain ⟨x, hx⟩ := List.exists_mem_of_ne_nil _ hne
              have hx' := List.mem_filter.mp hx
              have : ((creditBalanceWrite
                  (insertCompletionWrite dbp uid tid task.reward_ksh ans today)
                  uid task.reward_ksh).referral_rewards.find? (fun r =>
                    r.referrer_id == refId && r.referred_user_id == uid)).isSome := by
                rw [List.find?_isSome]
                exact ⟨x, hx'.1, hx'.2⟩
              exact Option.isSome_iff_exists.mp this
            have hrs : referralStep (creditBalanceWrite
                (insertCompletionWrite dbp uid tid task.reward_ksh ans today)
                uid task.reward_ksh) uid
                = creditBalanceWrite
                    (insertCompletionWrite dbp uid tid task.reward_ksh ans today)
                    uid task.reward_ksh := by
              unfold referralStep
              rw [hfu2]
              simp only []
              rw [hme2ref]
              simp only []
              rw [if_pos hc1, hg]
            rw [hrs]
            refine ⟨hcnt2, ?_, ?_, ?_⟩
            · intro _ hG'
              exact absurd hG' hG
            · intro hA'
              exact absurd hA hA'
            · intro _
              exact ⟨rfl, hbon2 refId⟩
        · have hc1 : (totalCompletions (creditBalanceWrite
              (insertCompletionWrite dbp uid tid task.reward_ksh ans today)
              uid task.reward_ksh) uid == 1) = false := by
            rw [hcnt2]
            simpa using hA
          have hrs : referralStep (creditBalanceWrite
              (insertCompletionWrite dbp uid tid task.reward_ksh ans today)
              uid task.reward_ksh) uid
              = creditBalanceWrite
                  (insertCompletionWrite dbp uid tid task.reward_ksh ans today)
                  uid task.reward_ksh := by
            unfold referralStep
            rw [hfu2]
            simp only []
            rw [hme2ref]
            simp only []
            rw [if_neg (by simp [hc1])]
          rw [hrs]
          refine ⟨hcnt2, ?_, ?_, ?_⟩
          · intro hA' _
            exact absurd hA' hA
          · intro _
            exact ⟨rfl, hbon2 refId⟩
          · intro _
            exact ⟨rfl, hbon2 refId⟩

/-- C3 witness: user 2 (referred by user 1) completes their first task; user 1's bonus
becomes 100 and exactly one grant row for the pair exists. -/
theorem C3_referral_bonus_exactly_once_witness :
    grantCount (completeTask 0 exDb3 2 10 "a" "d1").2 1 2 = 1 ∧
    bonusOf (completeTask 0 exDb3 2 10 "a" "d1").2 1 = some 100 := by
  have h := C3_referral_bonus_exactly_once 0 exDb3 exDb3 (completeTask 0 exDb3 2 10 "a" "d1").2 2 10 1 "a" "d1"
    (by decide) (by decide) (by decide)
  have h2 := h.2.1 (by decide) (by decide)
  refine ⟨h2.1, ?_⟩
  have hb : bonusOf exDb3 1 = some 0 := by decide
  rw [h2.2, hb]
  rfl

/-- C4: requestWithdrawal rejects any request whose amount exceeds the balance and
returns the state unchanged; for 0 < amount <= balance it debits exactly the amount
and appends exactly one pending withdrawal row. -/
theorem C4_withdrawal_correct (db : DB) (usr : User) (uid : Nat) (amount : Int) (phone method : String)
    (hu : findUser db uid = some usr) (hpos : 0 < amount)
    (hph : 6 ≤ phone.length) (hm : 2 ≤ method.length) :
    (usr.balance_ksh < amount →
      requestWithdrawal db uid amount phone method = (some "Insufficient balance", db)) ∧
    (amount ≤ usr.balance_ksh →
      (requestWithdrawal db uid amount phone method).1 = none ∧
      balanceOf (requestWithdrawal db uid amount phone method).2 uid
        = some (usr.balance_ksh - amount) ∧
      (requestWithdrawal db uid amount phone method).2.withdrawals
        = db.withdrawals ++ [⟨uid, amount, phone, method, WStatus.pending⟩]) := by
  have hval : ¬¬(0 < amount ∧ 6 ≤ phone.length ∧ 2 ≤ method.length) :=
    not_not_intro ⟨hpos, hph, hm⟩
  unfold requestWithdrawal
  rw [if_neg hval, hu]
  simp only []
  constructor
  · intro hlt
    rw [if_pos hlt]
  · intro hle
    rw [if_neg (not_lt.mpr hle)]
    have hfu : findUser { db with withdrawals :=
        db.withdrawals ++ [⟨uid, amount, phone, method, WStatus.pending⟩] } uid = some usr := hu
    refine ⟨rfl, ?_, ?_⟩
    · rw [balanceOf_updateBalance_self]
      have hb : balanceOf { db with withdrawals :=
          db.withdrawals ++ [⟨uid, amount, phone, method, WStatus.pending⟩] } uid
          = some usr.balance_ksh := by
        rw [balanceOf, hfu]
        rfl
      rw [hb]
      simp [sub_eq_add_neg]
    · show (updateBalance { db with withdrawals :=
          db.withdrawals ++ [⟨uid, amount, phone, method, WStatus.pending⟩] } uid (-amount)).withdrawals
        = db.withdrawals ++ [⟨uid, amount, phone, method, WStatus.pending⟩]
      rfl

/-- C4 witness: balance 500 - requesting 600 is rejected with the state unchanged;
requesting 200 succeeds, leaves balance 300 and one pending withdrawal row. -/
theorem C4_withdrawal_correct_witness :
    requestWithdrawal exDb4 1 600 "0712345678" "mpesa" = (some "Insufficient balance", exDb4) ∧
    (requestWithdrawal exDb4 1 200 "0712345678" "mpesa").1 = none ∧
    balanceOf (requestWithdrawal exDb4 1 200 "0712345678" "mpesa").2 1 = some 300 ∧
    (requestWithdrawal exDb4 1 200 "0712345678" "mpesa").2.withdrawals
      = [⟨1, 200, "0712345678", "mpesa", WStatus.pending⟩] := by
  have ha := (C4_withdrawal_correct exDb4 ⟨1, none, 500, 0, none⟩ 1 600 "0712345678" "mpesa"
    (by decide) (by decide) (by decide) (by decide)).1 (by decide)
  have hb := (C4_withdrawal_correct exDb4 ⟨1, none, 500, 0, none⟩ 1 200 "0712345678" "mpesa"
    (by decide) (by decide) (by decide) (by decide)).2 (by decide)
  refine ⟨ha, hb.1, ?_, ?_⟩
  · rw [hb.2.1]
    rfl
  · rw [hb.2.2]
    rfl

/-- C5 counterexample: with a catalog of two active tasks of category "audio", the
allocator returns both, so two assignments for the same (user, dayKey) share a
category, refuting the no-duplicate-category clause of the claim. -/
theorem C5_duplicate_category_cex :
    ((ensureDailyTasks (fun l => l) exDb5 1 "d1").2.map Task.category) = ["audio", "audio"] := by
  decide

/-- C5 amended: ensureDailyTasks returns at most N = 5 assignments for any user and
day (category distinctness is not enforced by the code). -/
theorem C5_at_most_five_assignments (shuffle : List Task → List Task) (db : DB) (userId : Nat) (today : String) :
    (ensureDailyTasks shuffle db userId today).2.length ≤ 5 := by
  unfold ensureDailyTasks
  simp only []
  split
  · simp [List.length_take]
  · simp [List.length_take]

/-- C6 counterexample: after allocating the single-task catalog (task 1 assigned for
the day), the catalog changes (task 1 deactivated, task 2 added).  A later call finds
an existing assignment for the day, yet deletes it and reallocates: it returns task 2
and the stored assignment row now references task 2 - refuting the frozen-allocation
clause (a later call never deletes or recomputes the existing assignments). -/
theorem C6_reallocation_cex :
    existingJoin exDb6b 1 "d1" = [⟨1, "audio", 10, false⟩] ∧
    (ensureDailyTasks (fun l => l) exDb6b 1 "d1").2 = [⟨2, "video", 12, true⟩] ∧
    (ensureDailyTasks (fun l => l) exDb6b 1 "d1").1.daily_tasks = [⟨1, "d1", 2⟩] := by
  decide

/-- C6 amended: when at least 5 assignments already exist for (user, dayKey) the
allocation is frozen - ensureDailyTasks returns them unchanged without touching the
state; and calling ensureDailyTasks twice in a row with the catalog unchanged between
the calls yields the identical assignment set the second time (as a permutation),
for any random draws s1, s2 (modelled as permutations of the active-task list). -/
theorem C6_idempotence_amended (s₁ s₂ : List Task → List Task) (db : DB) (u : Nat) (d : String)
    (hn : (db.tasks.map Task.id).Nodup)
    (hp₁ : ∀ l, List.Perm (s₁ l) l) (hp₂ : ∀ l, List.Perm (s₂ l) l) :
    (5 ≤ (existingJoin db u d).length →
       ensureDailyTasks s₁ db u d = (db, (existingJoin db u d).take 5)) ∧
    List.Perm (ensureDailyTasks s₂ (ensureDailyTasks s₁ db u d).1 u d).2
              (ensureDailyTasks s₁ db u d).2 := by
  constructor
  · intro h5
    exact ensure_frozen s₁ db u d h5
  · by_cases h5 : 5 ≤ (existingJoin db u d).length
    · rw [ensure_frozen s₁ db u d h5]
      simp only []
      rw [ensure_frozen s₂ db u d h5]
    · rw [ensure_alloc_eq s₁ db u d h5]
      simp only []
      have hjoin := join_after_alloc s₁ db u d hn hp₁
      by_cases h5' : 5 ≤ ((s₁ (db.tasks.filter (fun t => t.active))).take 5).length
      · rw [ensure_frozen s₂ _ u d (by rw [hjoin]; exact h5')]
        simp only []
        rw [hjoin]
        rw [List.take_of_length_le (by
          rw [List.length_take]
          exact Nat.min_le_left 5 _)]
      · have hlen : (s₁ (db.tasks.filter (fun t => t.active))).length < 5 := by
          have hlt := Nat.lt_of_not_le h5'
          rw [List.length_take] at hlt
          omega
        have htake : ((s₁ (db.tasks.filter (fun t => t.active))).take 5)
            = s₁ (db.tasks.filter (fun t => t.active)) :=
          List.take_of_length_le (Nat.le_of_lt hlen)
        rw [ensure_alloc_eq s₂ _ u d (by rw [hjoin]; exact h5')]
        simp only []
        have htasks2 : (((s₁ (db.tasks.filter (fun t => t.active))).take 5).foldl
            (fun acc t => insertIgnoreDaily acc ⟨u, d, t.id⟩)
            { db with daily_tasks := db.daily_tasks.filter (fun r =>
                !(r.user_id == u && r.day == d)) }).tasks = db.tasks :=
          foldl_insert_tasks u d _ _
        rw [htasks2, htake]
        have hlen2 : (s₂ (db.tasks.filter (fun t => t.active))).length ≤ 5 := by
          have e2 := (hp₂ (db.tasks.filter (fun t => t.active))).length_eq
          have e1 := (hp₁ (db.tasks.filter (fun t => t.active))).length_eq
          omega
        rw [List.take_of_length_le hlen2]
        exact (hp₂ _).trans (hp₁ _).symm

/-- C6 witness: two back-to-back allocations with the identity draw over a two-task
catalog yield the same assignment set. -/
theorem C6_idempotence_amended_witness :
    List.Perm
      (ensureDailyTasks (fun l => l)
        (ensureDailyTasks (fun l => l) exDb5 1 "d1").1 1 "d1").2
      (ensureDailyTasks (fun l => l) exDb5 1 "d1").2 :=
  (C6_idempotence_amended (fun l => l) (fun l => l) exDb5 1 "d1" (by decide)
    (fun l => List.Perm.refl l) (fun l => List.Perm.refl l)).2

/-- C7: the claim says day keys are computed at Nairobi local midnight.  The server's
dayUTC uses the UTC calendar date: epoch instants 75599 and 75601 are 23:59:59 and
00:00:01 Nairobi local time on either side of Nairobi midnight, yet dayUTC assigns
them the same key, while the Nairobi day rule of the client's countdown assigns them
different days. -/
theorem C7_day_key_utc_not_nairobi :
    dayUTC 75599 = dayUTC 75601 ∧ nairobiDay 75599 ≠ nairobiDay 75601 := by
  decide

/-- C8: every engine operation (completion credit, referral bonus grant, bonus
redemption, withdrawal debit, allocation, purge) preserves nonnegativity of all
users' balance_ksh and bonus_ksh, given distinct user ids (the primary key) and a
catalog of nonnegative rewards. -/
theorem C8_balances_nonneg_preserved (db db' : DB) (h : Step db db') (hn : UsersNodupIds db)
    (hr : RewardsNonneg db) (hb : BalancesNonneg db) : BalancesNonneg db' := by
  cases h with
  | complete now uid tid ans today =>
    unfold completeTask
    apply completeCore_balances
    · intro t ht
      rw [purge_tasks_eq] at ht
      exact hr t ht
    · exact purge_balances now db hb
  | withdraw uid amount phone method =>
    exact withdraw_balances db uid amount phone method hn hb
  | redeem uid =>
    exact redeem_balances db uid hn hb
  | ensure shuffle uid today =>
    intro u hu
    rw [ensure_users] at hu
    exact hb u hu
  | purge now =>
    exact purge_balances now db hb

/-- C8 witness: redeeming a 1000 bonus at balance 50 / bonus 1000 keeps both
balances nonnegative. -/
theorem C8_balances_nonneg_preserved_witness : BalancesNonneg (redeemBonus exDb8 1).2 :=
  C8_balances_nonneg_preserved exDb8 (redeemBonus exDb8 1).2 (Step.redeem 1 exDb8)
    (by unfold UsersNodupIds; decide)
    (by unfold RewardsNonneg; decide)
    (by unfold BalancesNonneg; decide)

/-- C9: after a purge sweep at a time past a user's delete_effective_at, no
completion, withdrawal, or daily-assignment row of that user remains, no referral
grant row names the user on either side, and the user row itself is gone. -/
theorem C9_purge_removes_user_rows (now : Nat) (db : DB) (u : User) (te : Nat)
    (hu : u ∈ db.users) (hd : u.delete_effective_at = some te) (hte : te ≤ now) :
    PurgedClean (purgeDeletedAccounts now db) u.id := by
  apply foldl_purge_clean
  unfold doomedIds
  apply List.mem_map_of_mem
  apply List.mem_filter.mpr
  refine ⟨hu, ?_⟩
  simp [hd, hte]

/-- C9 witness: sweeping at time 200 a database where user 2's deadline was 100
removes every row referencing user 2. -/
theorem C9_purge_removes_user_rows_witness : PurgedClean (purgeDeletedAccounts 200 exDb9) 2 :=
  C9_purge_removes_user_rows 200 exDb9 ⟨2, none, 9, 3, some 100⟩ 100 (by decide) (by decide) (by decide)

/-- C10: the completion handler counts the user's completion records dated the
current day; a successful completion requires that count to be below 5 and adds
exactly one record, and whenever the count has reached 5 (and the earlier checks
pass) the call is rejected with the daily-limit error and adds no record - so no
sequence of calls yields more than 5 records for one user and day. -/
theorem C10_daily_completion_cap (now : Nat) (db dbp : DB) (uid tid : Nat) (ans today : String)
    (hdbp : purgeDeletedAccounts now db = dbp) :
    (∀ db', completeTask now db uid tid ans today = (none, db') →
       dailyCount dbp uid today < 5 ∧
       dailyCount db' uid today = dailyCount dbp uid today + 1) ∧
    (5 ≤ dailyCount dbp uid today →
       (completeTask now db uid tid ans today).1 ≠ none ∧
       (completeTask now db uid tid ans today).2.task_completions = dbp.task_completions) ∧
    (∀ t, dbp.tasks.find? (fun x => x.id == tid && x.active) = some t →
       (dbp.daily_tasks.find? (fun d =>
          d.user_id == uid && d.day == today && d.task_id == tid)).isSome →
       5 ≤ dailyCount dbp uid today →
       completeTask now db uid tid ans today = (some "Daily limit reached (5 tasks/day)", dbp)) := by
  unfold completeTask
  rw [hdbp]
  unfold completeCore
  cases htask : dbp.tasks.find? (fun x => x.id == tid && x.active) with
  | none =>
    refine ⟨?_, ?_, ?_⟩
    · intro db' h
      simp at h
    · intro _
      exact ⟨by simp, rfl⟩
    · intro t ht
      simp at ht
  | some task =>
    cases hass : dbp.daily_tasks.find? (fun d =>
        d.user_id == uid && d.day == today && d.task_id == tid) with
    | none =>
      refine ⟨?_, ?_, ?_⟩
      · intro db' h
        simp at h
      · intro _
        exact ⟨by simp, rfl⟩
      · intro t ht hs
        simp at hs
    | some row =>
      simp only []
      by_cases hcap : 5 ≤ dailyCount dbp uid today
      · rw [if_pos hcap]
        refine ⟨?_, ?_, ?_⟩
        · intro db' h
          simp at h
        · intro _
          exact ⟨by simp, rfl⟩
        · intro t ht hs hc
          rfl
      · rw [if_neg hcap]
        refine ⟨?_, ?_, ?_⟩
        · intro db' h
          have hdb' : db' = referralStep
              (creditBalanceWrite
                (insertCompletionWrite dbp uid tid task.reward_ksh ans today)
                uid task.reward_ksh) uid := by
            have := (Prod.mk.injEq _ _ _ _).mp h
            exact this.2.symm
          refine ⟨Nat.lt_of_not_le hcap, ?_⟩
          rw [hdb']
          unfold dailyCount
          rw [referralStep_completions]
          show dailyCount (creditBalanceWrite
            (insertCompletionWrite dbp uid tid task.reward_ksh ans today)
            uid task.reward_ksh) uid today = _
          unfold creditBalanceWrite updateBalance
          show dailyCount (insertCompletionWrite dbp uid tid task.reward_ksh ans today) uid today = _
          rw [dailyCount_insert]
          rfl
        · intro hc
          exact absurd hc hcap
        · intro t ht hs hc
          exact absurd hc hcap

/-- C10 witness: with 5 completion records already dated today, a further completion
attempt on an assigned active task returns the daily-limit error and leaves the
state unchanged. -/
theorem C10_daily_completion_cap_witness :
    completeTask 0 exDb10 1 10 "a" "d1"
      = (some "Daily limit reached (5 tasks/day)", exDb10) := by
  have h := (C10_daily_completion_cap 0 exDb10 exDb10 1 10 "a" "d1" (by decide)).2.2
  exact h ⟨10, "audio", 7, true⟩ (by decide) (by decide) (by decide)

end Synthgraphix
